import Mathlib

/-!
Verification of the provider-adaptation layer of goplus/xgowiz.

The Go sources are shallowly embedded: JSON values decoded by encoding/json
into Go interface values are modeled by the inductive type JValue; a
json.RawMessage (raw bytes later parsed) is modeled by its parse result,
an Option JValue where none stands for bytes that are not valid JSON; Go
code whose unchecked type assertions can panic is modeled with Option,
where none marks the panic. Go maps are modeled as association lists in
insertion order.
-/

/-- A JSON value as decoded by Go's encoding/json into an interface value:
object, array, string, number, bool, or null. Numbers are modeled as
integers (the adapters never inspect numeric values). -/
inductive JValue where
  | null : JValue
  | bool (b : Bool) : JValue
  | num (n : Int) : JValue
  | str (s : String) : JValue
  | arr (elems : List JValue) : JValue
  | obj (fields : List (String × JValue)) : JValue

/-- A Go map[string]any holding JSON data, as an association list. -/
abbrev JObj := List (String × JValue)

/-- Go map indexing m[k]: the first binding of k, if any. -/
def lookupJ : JObj → String → Option JValue
  | [], _ => none
  | (k', v) :: rest, k => if k' = k then some v else lookupJ rest k

theorem sizeOf_lookupJ (o : JObj) (k : String) (v : JValue)
    (h : lookupJ o k = some v) : sizeOf v < sizeOf o := by
  induction o with
  | nil => simp [lookupJ] at h
  | cons kv rest ih =>
    obtain ⟨k', v'⟩ := kv
    by_cases hk : k' = k
    · simp [lookupJ, hk] at h
      subst h
      simp
      omega
    · simp [lookupJ, hk] at h
      have := ih h
      simp
      omega

/-- Whitespace as recognized by Go's unicode.IsSpace, restricted to the
ASCII whitespace characters that can occur in this development. -/
def goIsSpace (c : Char) : Bool :=
  c == ' ' || c == '\t' || c == '\n' || c == '\r'

/-- Go strings.TrimSpace: drop whitespace from both ends. -/
def trimSpace (s : String) : String :=
  String.mk (((s.data.reverse.dropWhile goIsSpace).reverse).dropWhile goIsSpace)

/-- Go strings.Join(parts, sep). -/
def joinWith (sep : String) : List String → String
  | [] => ""
  | [s] => s
  | s :: rest => s ++ sep ++ joinWith sep rest

theorem string_append_assoc (a b c : String) : a ++ b ++ c = a ++ (b ++ c) := by
  obtain ⟨la⟩ := a
  obtain ⟨lb⟩ := b
  obtain ⟨lc⟩ := c
  show String.mk (la ++ lb ++ lc) = String.mk (la ++ (lb ++ lc))
  rw [List.append_assoc]

theorem string_append_empty (a : String) : a ++ "" = a := by
  obtain ⟨la⟩ := a
  show String.mk (la ++ []) = String.mk la
  rw [List.append_nil]

theorem trimSpace_append_space (s : String) : trimSpace (s ++ " ") = trimSpace s := by
  obtain ⟨l⟩ := s
  show trimSpace (String.mk (l ++ [' '])) = trimSpace (String.mk l)
  simp [trimSpace, List.dropWhile, goIsSpace]

mutual

/-- A model of fmt.Sprint / fmt.Sprintf with the %v verb applied to a
JSON-decoded Go value: strings print raw, nil prints as an angle-bracket
nil marker, composites print bracketed. (Go prints map keys in sorted
order; the model prints fields in stored order, which coincides for the
at-most-one-field maps that appear in this development.) -/
def fmtV : JValue → String
  | .null => "<nil>"
  | .bool true => "true"
  | .bool false => "false"
  | .num n => toString n
  | .str s => s
  | .arr xs => "[" ++ joinWith " " (fmtVList xs) ++ "]"
  | .obj fs => "map[" ++ joinWith " " (fmtVFields fs) ++ "]"

/-- fmt %v of each element of a slice. -/
def fmtVList : List JValue → List String
  | [] => []
  | x :: xs => fmtV x :: fmtVList xs

/-- fmt %v of each key:value entry of a map. -/
def fmtVFields : List (String × JValue) → List String
  | [] => []
  | (k, v) :: xs => (k ++ ":" ++ fmtV v) :: fmtVFields xs

end

/-- JSON string escaping as performed by Go's json.Marshal, covering the
escapes relevant here (quote, backslash, newline). -/
def escapeJson (s : String) : String :=
  String.mk (s.data.foldr
    (fun c acc =>
      match c with
      | '"' => '\\' :: '"' :: acc
      | '\\' => '\\' :: '\\' :: acc
      | '\n' => '\\' :: 'n' :: acc
      | _ => c :: acc) [])

mutual

/-- Go json.Marshal of a JSON-decoded value. (Go prints map keys in sorted
order; the model keeps stored order, which coincides for the maps that
appear in this development.) -/
def jsonEncode : JValue → String
  | .null => "null"
  | .bool true => "true"
  | .bool false => "false"
  | .num n => toString n
  | .str s => "\"" ++ escapeJson s ++ "\""
  | .arr xs => "[" ++ joinWith "," (jsonEncodeList xs) ++ "]"
  | .obj fs => "\x7b" ++ joinWith "," (jsonEncodeFields fs) ++ "\x7d"

/-- json.Marshal of each element of a slice. -/
def jsonEncodeList : List JValue → List String
  | [] => []
  | x :: xs => jsonEncode x :: jsonEncodeList xs

/-- json.Marshal of each field of a map. -/
def jsonEncodeFields : List (String × JValue) → List String
  | [] => []
  | (k, v) :: xs => ("\"" ++ escapeJson k ++ "\":" ++ jsonEncode v) :: jsonEncodeFields xs

end

/-- Go json.Unmarshal of raw bytes into a map[string]any target. The raw
bytes are modeled by their parse result (none = invalid JSON). Unmarshal
succeeds on a JSON object, yielding its fields, and on JSON null, leaving
the target map nil (empty); every other input is an unmarshal error. -/
def unmarshalMap : Option JValue → Option JObj
  | none => none
  | some (.obj o) => some o
  | some .null => some []
  | some _ => none

/-- history.ContentBlock (llm/history/message.go): one block of a stored
message. Input is a json.RawMessage (modeled by its parse result) and
Content an arbitrary decoded JSON value (null when absent). -/
structure ContentBlock where
  type : String
  text : String := ""
  id : String := ""
  toolUseID : String := ""
  name : String := ""
  input : Option JValue := none
  content : JValue := .null

/-- history.HistoryMessage: a stored turn, a role plus ordered blocks. -/
structure HistoryMessage where
  ARole : String
  AContent : List ContentBlock

/-- HistoryMessage.Role. -/
def HistoryMessage.role (m : HistoryMessage) : String := m.ARole

/-- The loop body of HistoryMessage.Content: for each text block append
its text and a trailing space to the accumulator. -/
def historyContentAux : List ContentBlock → String → String
  | [], acc => acc
  | b :: bs, acc =>
    if b.type = "text" then historyContentAux bs (acc ++ b.text ++ " ")
    else historyContentAux bs acc

/-- HistoryMessage.Content: concatenate the text blocks (each with a
trailing space) and trim the result. -/
def HistoryMessage.content (m : HistoryMessage) : String :=
  trimSpace (historyContentAux m.AContent "")

/-- history.HistoryToolCall: a stored tool call (id, name, raw args). -/
structure HistoryToolCall where
  id : String
  name : String
  args : Option JValue

/-- HistoryToolCall.Arguments: json.Unmarshal the raw args into a map,
substituting the empty map when unmarshal fails. -/
def HistoryToolCall.arguments (t : HistoryToolCall) : JObj :=
  (unmarshalMap t.args).getD []

/-- HistoryMessage.ToolCalls: one HistoryToolCall per tool_use block. -/
def HistoryMessage.toolCalls (m : HistoryMessage) : List HistoryToolCall :=
  m.AContent.filterMap fun b =>
    if b.type = "tool_use" then some { id := b.id, name := b.name, args := b.input }
    else none

/-- HistoryMessage.ToolResponse: the first tool_result block's
tool_use_id (with ok = true), if any. -/
def HistoryMessage.toolResponse (m : HistoryMessage) : Option String :=
  (m.AContent.find? fun b => b.type == "tool_result").map (·.toolUseID)

/-- llm.Schema: the vendor-neutral tool input schema. -/
structure Schema where
  type : String
  properties : JObj
  required : List String

/-- genai.Type: the Google schema type enumeration. -/
inductive GType where
  | unspecified
  | string
  | number
  | integer
  | boolean
  | array
  | object
deriving DecidableEq

/-- genai.Schema, restricted to the fields the adapter sets: Type,
Description, Nullable, Properties, Items, Required. -/
inductive GSchema where
  | mk (type : GType) (description : String) (nullable : Bool)
       (properties : List (String × GSchema)) (items : Option GSchema)
       (required : List String)

def GSchema.type : GSchema → GType
  | .mk t _ _ _ _ _ => t

def GSchema.description : GSchema → String
  | .mk _ d _ _ _ _ => d

def GSchema.nullable : GSchema → Bool
  | .mk _ _ n _ _ _ => n

def GSchema.properties : GSchema → List (String × GSchema)
  | .mk _ _ _ p _ _ => p

def GSchema.items : GSchema → Option GSchema
  | .mk _ _ _ _ i _ => i

def GSchema.required : GSchema → List String
  | .mk _ _ _ _ _ r => r

/-- google toType (cmd/google/provider.go): map a JSON-schema type string
to the genai type enum; unknown strings map to unspecified. -/
def toType (typ : String) : GType :=
  match typ with
  | "string" => .string
  | "boolean" => .boolean
  | "object" => .object
  | "array" => .array
  | _ => .unspecified

/-- The description extraction of propertyToGoogleSchema: the comma-ok
string assertion on the "description" entry, which never panics and
yields the empty string when the entry is absent or not a string. -/
def googleDescription (props : JObj) : String :=
  match lookupJ props "description" with
  | some (.str d) => d
  | _ => ""

mutual

/-- google propertyToGoogleSchema (cmd/google/provider.go lines 148-167).
The Go function takes the property's map[string]any; its unchecked type
assertions (on the "type" entry, and on the "properties" / "items"
entries for object / array types) panic when they fail, modeled here by
returning none. The argument is the JValue that was asserted to be a map
by the caller, so a non-object argument is also none. -/
def propertyToGoogleSchema (v : JValue) : Option GSchema :=
  match v with
  | .obj props =>
    match lookupJ props "type" with
    | some (.str t) =>
      if toType t = .object then
        match hp : lookupJ props "properties" with
        | some (.obj ps) =>
          (propsToGoogleSchemas ps).map fun gps =>
            .mk (toType t) (googleDescription props) false gps none []
        | _ => none
      else if ha : toType t = .array then
        match hi : lookupJ props "items" with
        | some (.obj ip) =>
          (propertyToGoogleSchema (.obj ip)).map fun gi =>
            .mk (toType t) (googleDescription props) false [] (some gi) []
        | _ => none
      else some (.mk (toType t) (googleDescription props) false [] none [])
    | _ => none
  | _ => none
termination_by sizeOf v
decreasing_by
  · have h := sizeOf_lookupJ props "properties" _ hp
    simp at h ⊢
    omega
  · have h := sizeOf_lookupJ props "items" _ hi
    simp at h ⊢
    omega

/-- The loop over a properties map shared by translateToGoogleSchema and
the object case of propertyToGoogleSchema: each value is asserted to be a
map (panic modeled by none) and translated. -/
def propsToGoogleSchemas (o : JObj) : Option (List (String × GSchema)) :=
  match o with
  | [] => some []
  | (k, v) :: rest =>
    match v with
    | .obj m =>
      match propertyToGoogleSchema (.obj m), propsToGoogleSchemas rest with
      | some g, some gs => some ((k, g) :: gs)
      | _, _ => none
    | _ => none
termination_by sizeOf o
decreasing_by
  all_goals simp
  all_goals omega

end

/-- google translateToGoogleSchema (cmd/google/provider.go lines 124-146):
translate the vendor-neutral schema; when the translated properties map is
empty, mark the schema nullable and inject the synthetic nullable integer
property named unused. Assertion panics inside the property loop are
modeled by none. -/
def translateToGoogleSchema (schema : Schema) : Option GSchema :=
  match propsToGoogleSchemas schema.properties with
  | none => none
  | some ps =>
    if ps.isEmpty then
      some (.mk (toType schema.type) "" true
        [("unused", .mk .integer "" true [] none [])] none schema.required)
    else
      some (.mk (toType schema.type) "" false ps none schema.required)

mutual

/-- The precondition of claim C9, formalized from its wording: a property
description is well-formed when it is a map containing a string "type"
entry; when object-typed it must contain a "properties" map whose values
are (recursively) well-formed property maps; when array-typed it must
contain an "items" map that is (recursively) well-formed. -/
def wfGoogleProp (v : JValue) : Bool :=
  match v with
  | .obj props =>
    match lookupJ props "type" with
    | some (.str t) =>
      if toType t = .object then
        match hp : lookupJ props "properties" with
        | some (.obj ps) => wfGoogleProps ps
        | _ => false
      else if ha : toType t = .array then
        match hi : lookupJ props "items" with
        | some (.obj ip) => wfGoogleProp (.obj ip)
        | _ => false
      else true
    | _ => false
  | _ => false
termination_by sizeOf v
decreasing_by
  · have h := sizeOf_lookupJ props "properties" _ hp
    simp at h ⊢
    omega
  · have h := sizeOf_lookupJ props "items" _ hi
    simp at h ⊢
    omega

/-- Claim C9's precondition for a properties map: every value is a
well-formed property map. -/
def wfGoogleProps (o : JObj) : Bool :=
  match o with
  | [] => true
  | (_, v) :: rest =>
    match v with
    | .obj m => wfGoogleProp (.obj m) && wfGoogleProps rest
    | _ => false
termination_by sizeOf o
decreasing_by
  all_goals simp
  all_goals omega

end

/-- One genai.Part of a candidate's content: text, a model-issued
function call, or a function response. -/
inductive GPart where
  | text (s : String)
  | functionCall (name : String) (args : JObj)
  | functionResponse (name : String)

/-- genai.Candidate, restricted to the fields the adapter reads: the
content's role and parts. -/
structure GCandidate where
  role : String
  parts : List GPart

/-- genai Candidate.FunctionCalls: the FunctionCall parts of the
candidate's content, in order. -/
def GCandidate.functionCalls (c : GCandidate) : List (String × JObj) :=
  c.parts.filterMap fun p =>
    match p with
    | .functionCall n a => some (n, a)
    | _ => none

/-- google ToolCall (wrapping one genai.FunctionCall plus the numeric id
assigned at decode time). -/
structure GToolCall where
  name : String
  args : JObj
  toolCallID : Nat

/-- google ToolCall.ID: fmt.Sprintf("Tool<%d>", t.toolCallID). -/
def GToolCall.id (t : GToolCall) : String :=
  "Tool<" ++ toString t.toolCallID ++ ">"

/-- google Message: the first candidate of a response plus the provider's
counter value at decode time. -/
structure GMessage where
  candidate : GCandidate
  toolCallID : Nat

/-- google Message.Role. -/
def GMessage.role (m : GMessage) : String := m.candidate.role

/-- The indexed loop of google Message.ToolCalls: the i-th function call
gets numeric id base + i. -/
def googleToolCallsAux (base : Nat) (i : Nat) : List (String × JObj) → List GToolCall
  | [] => []
  | (n, a) :: rest =>
    { name := n, args := a, toolCallID := base + i } :: googleToolCallsAux base (i + 1) rest

/-- google Message.ToolCalls. -/
def GMessage.toolCalls (m : GMessage) : List GToolCall :=
  googleToolCallsAux m.toolCallID 0 m.candidate.functionCalls

/-- The response-decoding step of google Provider.SendMessage
(cmd/google/provider.go lines 100-107): wrap the first candidate together
with the current counter, then advance the counter by the number of
function calls in the candidate. The provider state is the counter. -/
def googleDecodeResponse (counter : Nat) (cand : GCandidate) : GMessage × Nat :=
  ({ candidate := cand, toolCallID := counter }, counter + cand.functionCalls.length)

/-- google Provider.CreateToolResponse (cmd/google/provider.go lines
110-113): an unused stub that returns (nil, nil) - no message and no
error. The nil message is modeled as none. -/
def googleCreateToolResponse (_toolCallID : String) (_content : JValue) : Option GMessage :=
  none

/-- openai FunctionCall: the function name and the JSON-encoded argument
string of one vendor tool-call entry. -/
structure OFunctionCall where
  name : String
  arguments : String

/-- openai ToolCall: one vendor tool-call entry of a request or response
message. -/
structure OToolCall where
  id : String
  type : String
  function : OFunctionCall

/-- openai MessageParam: one outbound message. Content is a *string
(none = JSON null / omitted). -/
structure OMessageParam where
  role : String
  content : Option String
  toolCalls : List OToolCall
  toolCallID : String

/-- The observations an llm.ToolCall offers: ID(), Name(), Arguments(). -/
structure PlainToolCall where
  id : String
  name : String
  args : JObj

/-- The observations of an llm.Message implementation other than
history.HistoryMessage: Role(), Content(), ToolCalls(), and ToolResponse()
(some id when ok). -/
structure PlainMessage where
  role : String
  content : String
  toolCalls : List PlainToolCall
  toolResponse : Option String

/-- An llm.Message as the OpenAI adapter's conversion loop sees it: either
a stored history.HistoryMessage (which the loop inspects by a type switch)
or any other implementation, visible only through the interface. -/
inductive LlmMessage where
  | history (m : HistoryMessage)
  | plain (m : PlainMessage)

/-- Message.Role() of the interface value. -/
def LlmMessage.role : LlmMessage → String
  | .history m => m.role
  | .plain m => m.role

/-- Message.Content() of the interface value. -/
def LlmMessage.content : LlmMessage → String
  | .history m => m.content
  | .plain m => m.content

/-- Message.ToolCalls() of the interface value, as the triple of
observations ID(), Name(), Arguments() per call. -/
def LlmMessage.toolCalls : LlmMessage → List PlainToolCall
  | .history m => m.toolCalls.map fun t => { id := t.id, name := t.name, args := t.arguments }
  | .plain m => m.toolCalls

/-- Message.ToolResponse() of the interface value. -/
def LlmMessage.toolResponse : LlmMessage → Option String
  | .history m => m.toolResponse
  | .plain m => m.toolResponse

/-- The structured-history extraction in openai Provider.SendMessage
(llm/history/message.go lines 199-217): for each tool_result block of the
history message take its Text when non-empty, else the fmt-printed "text"
entries of the maps in its content array. -/
def openaiToolResultTexts : List ContentBlock → List String
  | [] => []
  | b :: bs =>
    if b.type = "tool_result" then
      (if b.text ≠ "" then [b.text]
       else
         match b.content with
         | .arr items =>
           items.filterMap fun it =>
             match it with
             | .obj im => (lookupJ im "text").map fmtV
             | _ => none
         | _ => []) ++ openaiToolResultTexts bs
    else openaiToolResultTexts bs

/-- The tool-response content extraction of openai Provider.SendMessage
(llm/history/message.go lines 193-218): the message's own Content() when
non-empty, else the structured-history extraction for history messages
(joined with newlines), else the empty string. -/
def openaiExtractToolContent (msg : LlmMessage) : String :=
  if msg.content ≠ "" then msg.content
  else
    match msg with
    | .history hm => joinWith "\n" (openaiToolResultTexts hm.AContent)
    | .plain _ => ""

/-- The per-message conversion loop body of openai Provider.SendMessage
(llm/history/message.go lines 146-231): emit role and non-empty content;
when the message has tool calls, null out the content and emit one vendor
tool-call entry per call with JSON-encoded arguments; when the message is
a tool response, overwrite role with "tool", set the tool-call id, and set
the content to the extracted text, substituting a fixed string when empty.
(The Go code can only fail when json.Marshal of an argument map fails,
which cannot happen for JSON-decoded maps, so the model is total.) -/
def convertPriorMessage (msg : LlmMessage) : OMessageParam :=
  let base : OMessageParam :=
    { role := msg.role
      content := if msg.content ≠ "" then some msg.content else none
      toolCalls := []
      toolCallID := "" }
  let withCalls :=
    if msg.toolCalls.isEmpty then base
    else
      { base with
        content := none
        toolCalls := msg.toolCalls.map fun call =>
          { id := call.id
            type := "function"
            function := { name := call.name, arguments := jsonEncode (.obj call.args) } } }
  match msg.toolResponse with
  | none => withCalls
  | some toolCallID =>
    let contentStr := openaiExtractToolContent msg
    let contentStr := if contentStr = "" then "No content returned from function" else contentStr
    { withCalls with content := some contentStr, role := "tool", toolCallID := toolCallID }

/-- The content normalization of openai Provider.CreateToolResponse
(llm/history/message.go lines 293-347): a string is used directly; an
array collects text fields from its map elements (a string "text" entry,
a "text" array of strings, or a nested "content" array of maps with
string "text" entries), joined by newlines, falling back to the JSON
encoding of the array when no text was found; any other value is
JSON-encoded. -/
def openaiNormalizeContent (content : JValue) : String :=
  match content with
  | .str v => v
  | .arr v =>
    let texts := v.foldr
      (fun item acc =>
        match item with
        | .obj block =>
          match lookupJ block "text" with
          | some (.str text) => text :: acc
          | some (.arr textArray) =>
            (textArray.filterMap fun t =>
              match t with
              | .str s => some s
              | _ => none) ++ acc
          | _ =>
            match lookupJ block "content" with
            | some (.arr contentArray) =>
              (contentArray.filterMap fun c =>
                match c with
                | .obj cm =>
                  match lookupJ cm "text" with
                  | some (.str s) => some s
                  | _ => none
                | _ => none) ++ acc
            | _ => acc
        | _ => acc) []
    let s := joinWith "\n" texts
    if s = "" then jsonEncode (.arr v) else s
  | v => jsonEncode v

/-- openai Message: the response (or created) message, reduced to the
single choice's MessageParam that all accessors read. -/
structure OMessage where
  message : OMessageParam

/-- openai Message.Role. -/
def OMessage.role (m : OMessage) : String := m.message.role

/-- openai Message.Content: empty when the content pointer is nil. -/
def OMessage.content (m : OMessage) : String := m.message.content.getD ""

/-- openai Message.ToolCalls (the wrapped vendor entries). -/
def OMessage.toolCalls (m : OMessage) : List OToolCall := m.message.toolCalls

/-- openai Message.ToolResponse: the ToolCallID field, ok iff non-empty. -/
def OMessage.toolResponse (m : OMessage) : String × Bool :=
  (m.message.toolCallID, m.message.toolCallID != "")

/-- openai Provider.CreateToolResponse (llm/history/message.go lines
287-370): normalize the content to a string, substitute a fixed string
when empty, and wrap it in a tool-role message carrying the tool-call id.
(The Go error paths are json.Marshal failures, impossible for
JSON-decoded values, so the model is total.) -/
def openaiCreateToolResponse (toolCallID : String) (content : JValue) : OMessage :=
  let contentStr := openaiNormalizeContent content
  let contentStr := if contentStr = "" then "No content returned from tool" else contentStr
  { message :=
      { role := "tool"
        content := some contentStr
        toolCalls := []
        toolCallID := toolCallID } }

/-- openai ToolCallWrapper.Arguments (llm/history/message.go lines
420-426): json.Unmarshal of the vendor-supplied argument string (modeled
by its parse result), substituting the empty map when unmarshal fails. -/
def openaiWrapperArguments (rawArgs : Option JValue) : JObj :=
  (unmarshalMap rawArgs).getD []

/-- anthropic ContentBlock (llm/anthropic/types.go): one block of an
Anthropic message. Content is the arbitrary decoded JSON payload (null
when absent); Input a json.RawMessage modeled by its parse result. -/
structure ABlock where
  type : String
  text : String := ""
  id : String := ""
  toolUseID : String := ""
  name : String := ""
  input : Option JValue := none
  content : JValue := .null

/-- anthropic Message, reduced to the APIMessage fields its accessors
read: role and content blocks. -/
structure AMessage where
  role : String
  blocks : List ABlock

/-- The per-item extraction inside anthropic Message.Content's tool_result
array case (llm/anthropic/types.go lines 91-106): a map contributes the
fmt-printed value of its "text" entry when present (nothing otherwise);
a non-map item is fmt-printed directly. -/
def anthropicItemTexts : List JValue → List String
  | [] => []
  | item :: rest =>
    (match item with
     | .obj cm =>
       match lookupJ cm "text" with
       | some t => [fmtV t]
       | none => []
     | other => [fmtV other]) ++ anthropicItemTexts rest

/-- The body of the block-scanning loop of anthropic Message.Content
(llm/anthropic/types.go lines 74-114), threading the accumulated content
list through one block: a text block appends its text; a tool_result
block appends the string content, else the extracted array items, and
falls back to the block's raw Text only when the whole accumulated list
is still empty. -/
def anthropicStepAcc (b : ABlock) (acc : List String) : List String :=
  if b.type = "text" then acc ++ [b.text]
  else if b.type = "tool_result" then
    match b.content with
    | .str s => acc ++ [s]
    | other =>
      let acc1 :=
        match other with
        | .arr items => acc ++ anthropicItemTexts items
        | _ => acc
      if acc1.length = 0 ∧ b.text ≠ "" then acc1 ++ [b.text] else acc1
  else acc

/-- The block scan itself: fold the per-block body over the blocks. -/
def anthropicContentLoop : List ABlock → List String → List String
  | [], acc => acc
  | b :: bs, acc => anthropicContentLoop bs (anthropicStepAcc b acc)

/-- anthropic Message.Content: join the collected pieces with single
spaces and trim. -/
def AMessage.content (m : AMessage) : String :=
  trimSpace (joinWith " " (anthropicContentLoop m.blocks []))

/-- anthropic ToolCall: a stored tool_use block's id, name and raw input. -/
structure AToolCall where
  id : String
  name : String
  args : Option JValue

/-- anthropic ToolCall.Arguments (llm/anthropic/types.go lines 159-165):
json.Unmarshal of the raw input, substituting the empty map on failure. -/
def AToolCall.arguments (t : AToolCall) : JObj :=
  (unmarshalMap t.args).getD []

/-- anthropic Message.ToolCalls: one ToolCall per tool_use block. -/
def AMessage.toolCalls (m : AMessage) : List AToolCall :=
  m.blocks.filterMap fun b =>
    if b.type = "tool_use" then some { id := b.id, name := b.name, args := b.input }
    else none

/-- anthropic Message.ToolResponse: the first tool_result block's
tool_use_id with ok = true, else ("", false). -/
def AMessage.toolResponse (m : AMessage) : String × Bool :=
  match m.blocks.find? fun b => b.type == "tool_result" with
  | some b => (b.toolUseID, true)
  | none => ("", false)

/-- anthropic Provider.CreateToolResponse (llm/anthropic/provider.go lines
156-194): string content is kept as is, anything else is JSON-encoded (the
Go []byte case is not representable for JSON-decoded values); the message
is a tool-role message with a single tool_result block carrying the
original content, the string form, and the tool-call id. -/
def anthropicCreateToolResponse (toolCallID : String) (content : JValue) : AMessage :=
  let contentStr :=
    match content with
    | .str v => v
    | v => jsonEncode v
  { role := "tool"
    blocks := [{ type := "tool_result", toolUseID := toolCallID,
                 content := content, text := contentStr }] }

/-- ollama OllamaMessage (cmd/ollama/types.go), reduced to the api.Message
fields plus the separately stored ToolCallID. ToolCalls entries are
(function name, native argument map) pairs. -/
structure OllamaMessage where
  role : String
  content : String
  toolCalls : List (String × JObj)
  toolCallID : String

/-- ollama OllamaMessage.ToolResponse: the stored id, ok iff the role is
"tool". -/
def OllamaMessage.toolResponse (m : OllamaMessage) : String × Bool :=
  (m.toolCallID, m.role == "tool")

/-- ollama Provider.CreateToolResponse (cmd/ollama part of the sources,
lines 197-241): string content is used directly, anything else is
JSON-encoded; the result is a tool-role message with the given id and no
tool calls. (The Go error path is a json.Marshal failure, impossible for
JSON-decoded values.) -/
def ollamaCreateToolResponse (toolCallID : String) (content : JValue) : OllamaMessage :=
  let contentStr :=
    match content with
    | .str v => v
    | v => jsonEncode v
  { role := "tool", content := contentStr, toolCalls := [], toolCallID := toolCallID }

/-- Each collected text followed by one trailing space, concatenated. -/
def trailAppend : List String → String
  | [] => ""
  | t :: ts => t ++ (" " ++ trailAppend ts)

/-- A stored tool-response turn whose tool_result block carries no text at
all, exercising the empty-content substitution. -/
def emptyToolResultTurn : HistoryMessage :=
  { ARole := "tool", AContent := [{ type := "tool_result", toolUseID := "t9" }] }

/-- An assistant turn carrying both text content and one tool call. -/
def assistantMixedMsg : PlainMessage :=
  { role := "assistant"
    content := "hello"
    toolCalls := [{ id := "t1", name := "f", args := [("x", .num 2)] }]
    toolResponse := none }

/-- A user turn that (unexpectedly) carries a tool call. -/
def userWithCallMsg : PlainMessage :=
  { role := "user"
    content := ""
    toolCalls := [{ id := "t2", name := "g", args := [] }]
    toolResponse := none }

/-- The per-block contribution of anthropic Message.Content as the
(amended) specification describes it: a text block contributes its text;
a tool_result block contributes its string content, else the extracted
texts of its array content, else - only when nothing at all has been
contributed by any earlier block and the array contributed nothing - the
block's own raw Text field. -/
def anthropicBlockContrib (b : ABlock) (anyBefore : Bool) : List String :=
  if b.type = "text" then [b.text]
  else if b.type = "tool_result" then
    match b.content with
    | .str s => [s]
    | .arr items =>
      let ts := anthropicItemTexts items
      if ts.isEmpty ∧ anyBefore = false ∧ b.text ≠ "" then [b.text] else ts
    | _ => if anyBefore = false ∧ b.text ≠ "" then [b.text] else []
  else []

/-- The specification-side scan of anthropic Message.Content: fold the
per-block contributions left to right, tracking only whether any block has
contributed so far. -/
def anthropicSpecLoop : List ABlock → Bool → List String
  | [], _ => []
  | b :: bs, anyBefore =>
    let ts := anthropicBlockContrib b anyBefore
    ts ++ anthropicSpecLoop bs (anyBefore || !ts.isEmpty)

/-- An Anthropic response with a text block followed by a tool_result
block whose content payload is not a string or array but whose raw Text
field is set. -/
def textThenRawToolResult : AMessage :=
  { role := "assistant"
    blocks := [{ type := "text", text := "a" },
               { type := "tool_result", toolUseID := "t1", text := "b" }] }

theorem string_empty_append (a : String) : "" ++ a = a := by
  obtain ⟨la⟩ := a
  show String.mk ([] ++ la) = String.mk la
  rw [List.nil_append]

theorem historyContentAux_eq_trailAppend (bs : List ContentBlock) :
    ∀ acc : String,
      historyContentAux bs acc
        = acc ++ trailAppend (bs.filterMap fun b => if b.type = "text" then some b.text else none) := by
  induction bs with
  | nil =>
    intro acc
    simp [historyContentAux, trailAppend, string_append_empty]
  | cons b rest ih =>
    intro acc
    by_cases hb : b.type = "text"
    · simp only [historyContentAux, hb, if_pos, List.filterMap_cons, ih]
      simp [trailAppend, string_append_assoc]
    · simp only [historyContentAux, hb, if_neg, List.filterMap_cons, ih]
      simp [hb]

theorem trailAppend_eq_joinWith (ts : List String) (h : ts ≠ []) :
    trailAppend ts = joinWith " " ts ++ " " := by
  induction ts with
  | nil => exact absurd rfl h
  | cons t rest ih =>
    cases rest with
    | nil => simp [trailAppend, joinWith, string_append_empty]
    | cons t2 rest2 =>
      have hr : t2 :: rest2 ≠ [] := by simp
      show t ++ (" " ++ trailAppend (t2 :: rest2)) = joinWith " " (t :: t2 :: rest2) ++ " "
      rw [ih hr]
      show t ++ (" " ++ (joinWith " " (t2 :: rest2) ++ " "))
        = t ++ " " ++ joinWith " " (t2 :: rest2) ++ " "
      simp [string_append_assoc]

/-- C8: HistoryMessage.Content equals the text fields of the text-type
blocks, in block order, joined with single spaces and trimmed; in
particular text blocks "a" and "b" yield "a b" and zero blocks yield "". -/
theorem history_content_is_join_of_text_blocks :
    (∀ m : HistoryMessage,
      m.content = trimSpace (joinWith " "
        (m.AContent.filterMap fun b => if b.type = "text" then some b.text else none)))
    ∧ HistoryMessage.content
        { ARole := "assistant",
          AContent := [{ type := "text", text := "a" }, { type := "text", text := "b" }] } = "a b"
    ∧ HistoryMessage.content { ARole := "assistant", AContent := [] } = "" := by
  refine ⟨?_, by decide, by decide⟩
  intro m
  rw [HistoryMessage.content, historyContentAux_eq_trailAppend, string_empty_append]
  cases hts : m.AContent.filterMap fun b => if b.type = "text" then some b.text else none with
  | nil => rfl
  | cons t rest =>
    rw [trailAppend_eq_joinWith _ (by simp), trimSpace_append_space]

/-- C6: for every ToolCall implementation (history, openai, anthropic),
raw arguments that are a JSON object decode to exactly that mapping, and
raw arguments that are not a JSON object (invalid bytes, or valid JSON of
another kind) yield the empty map, with no error surfaced. -/
theorem toolcall_arguments_lenient :
    ∀ raw : Option JValue,
      ((∀ o : JObj, raw = some (.obj o) →
          HistoryToolCall.arguments { id := "i", name := "n", args := raw } = o
          ∧ openaiWrapperArguments raw = o
          ∧ AToolCall.arguments { id := "i", name := "n", args := raw } = o)
       ∧ ((∀ o : JObj, raw ≠ some (.obj o)) →
          HistoryToolCall.arguments { id := "i", name := "n", args := raw } = []
          ∧ openaiWrapperArguments raw = []
          ∧ AToolCall.arguments { id := "i", name := "n", args := raw } = [])) := by
  intro raw
  constructor
  · intro o ho
    subst ho
    simp [HistoryToolCall.arguments, openaiWrapperArguments, AToolCall.arguments, unmarshalMap]
  · intro hno
    match raw with
    | none =>
      simp [HistoryToolCall.arguments, openaiWrapperArguments, AToolCall.arguments, unmarshalMap]
    | some (.obj o) => exact absurd rfl (hno o)
    | some .null =>
      simp [HistoryToolCall.arguments, openaiWrapperArguments, AToolCall.arguments, unmarshalMap]
    | some (.bool b) =>
      simp [HistoryToolCall.arguments, openaiWrapperArguments, AToolCall.arguments, unmarshalMap]
    | some (.num n) =>
      simp [HistoryToolCall.arguments, openaiWrapperArguments, AToolCall.arguments, unmarshalMap]
    | some (.str s) =>
      simp [HistoryToolCall.arguments, openaiWrapperArguments, AToolCall.arguments, unmarshalMap]
    | some (.arr xs) =>
      simp [HistoryToolCall.arguments, openaiWrapperArguments, AToolCall.arguments, unmarshalMap]

theorem toolcall_arguments_lenient_witness :
    HistoryToolCall.arguments
        { id := "i", name := "n", args := some (.obj [("a", JValue.num 1)]) }
      = [("a", JValue.num 1)]
    ∧ openaiWrapperArguments (some (.obj [("a", JValue.num 1)])) = [("a", JValue.num 1)]
    ∧ AToolCall.arguments
        { id := "i", name := "n", args := some (.obj [("a", JValue.num 1)]) }
      = [("a", JValue.num 1)] :=
  (toolcall_arguments_lenient (some (.obj [("a", JValue.num 1)]))).1 _ rfl

/-- C1 counterexample: the claim fails as stated. The OpenAI adapter's
created tool response reports ok = false when the id is the empty string,
and the Google adapter's CreateToolResponse returns no message at all
(a nil message, with a nil error). -/
theorem create_tool_response_linkage_counterexample :
    (openaiCreateToolResponse "" (.str "hi")).toolResponse ≠ ("", true)
    ∧ googleCreateToolResponse "X" (.str "hi") = none := by
  constructor
  · decide
  · rfl

/-- C1 amended: for the Anthropic and Ollama adapters,
createToolResponse(X, content) returns without error a Message whose
ToolResponse() is (X, true) for every X; for the OpenAI adapter the same
holds whenever X is non-empty; the Google adapter's CreateToolResponse is
an unused stub returning no message. -/
theorem create_tool_response_linkage :
    ∀ (x : String) (c : JValue),
      (x ≠ "" → (openaiCreateToolResponse x c).toolResponse = (x, true))
      ∧ (anthropicCreateToolResponse x c).toolResponse = (x, true)
      ∧ (ollamaCreateToolResponse x c).toolResponse = (x, true) := by
  intro x c
  refine ⟨?_, ?_, ?_⟩
  · intro hx
    simp [openaiCreateToolResponse, OMessage.toolResponse, hx]
  · simp [anthropicCreateToolResponse, AMessage.toolResponse, List.find?]
  · simp [ollamaCreateToolResponse, OllamaMessage.toolResponse]

theorem create_tool_response_linkage_witness :
    (openaiCreateToolResponse "id1" (.str "ok")).toolResponse = ("id1", true)
    ∧ (anthropicCreateToolResponse "id1" (.str "ok")).toolResponse = ("id1", true)
    ∧ (ollamaCreateToolResponse "id1" (.str "ok")).toolResponse = ("id1", true) :=
  ⟨(create_tool_response_linkage "id1" (.str "ok")).1 (by decide),
   (create_tool_response_linkage "id1" (.str "ok")).2.1,
   (create_tool_response_linkage "id1" (.str "ok")).2.2⟩

/-- C7 counterexample: a constructible message with non-empty ToolCalls()
and a role other than "assistant" - a stored history message whose role is
"user" and whose content holds a tool_use block. Nothing in the code
constrains the stored role. -/
theorem toolcalls_role_invariant_counterexample :
    HistoryMessage.toolCalls
        { ARole := "user",
          AContent := [{ type := "tool_use", id := "call_1", name := "f",
                         input := some (.obj []) }] } ≠ []
    ∧ HistoryMessage.role
        { ARole := "user",
          AContent := [{ type := "tool_use", id := "call_1", name := "f",
                         input := some (.obj []) }] } = "user"
    ∧ ("user" : String) ≠ "assistant" := by
  refine ⟨?_, rfl, by decide⟩
  simp [HistoryMessage.toolCalls]

/-- C7 amended: the role of a decoded vendor or stored history message is
taken from the data and is not forced to "assistant" when tool calls are
present; the constructors that do guarantee the implication are the
implemented createToolResponse constructors, whose messages never carry
tool calls (so the implication holds vacuously for them). -/
theorem created_tool_responses_have_no_tool_calls :
    ∀ (x : String) (c : JValue),
      (openaiCreateToolResponse x c).toolCalls = []
      ∧ (anthropicCreateToolResponse x c).toolCalls = []
      ∧ (ollamaCreateToolResponse x c).toolCalls = [] := by
  intro x c
  refine ⟨rfl, ?_, rfl⟩
  simp [anthropicCreateToolResponse, AMessage.toolCalls]

/-- C10: in the OpenAI adapter a tool-role message never carries an empty
content string. The SendMessage conversion of every prior tool-response
message yields a tool-role param whose content is present and non-empty
(substituting a fixed sentence when the extracted content is empty), and
CreateToolResponse likewise substitutes a fixed sentence when the
normalized content is empty. -/
theorem openai_tool_role_content_nonempty :
    (∀ (msg : LlmMessage) (tid : String), msg.toolResponse = some tid →
        (convertPriorMessage msg).role = "tool"
        ∧ (convertPriorMessage msg).toolCallID = tid
        ∧ ∃ s, (convertPriorMessage msg).content = some s ∧ s ≠ "")
    ∧ (∀ (x : String) (c : JValue), (openaiCreateToolResponse x c).content ≠ "") := by
  constructor
  · intro msg tid h
    simp only [convertPriorMessage, h]
    refine ⟨by trivial, by trivial, ?_⟩
    by_cases he : openaiExtractToolContent msg = ""
    · exact ⟨"No content returned from function", by simp [he], by decide⟩
    · exact ⟨openaiExtractToolContent msg, by simp [he], he⟩
  · intro x c
    simp only [openaiCreateToolResponse, OMessage.content]
    by_cases hn : openaiNormalizeContent c = ""
    · simp [hn]
    · simp [hn]

theorem openai_tool_role_content_nonempty_witness :
    (convertPriorMessage (.history emptyToolResultTurn)).role = "tool"
    ∧ (convertPriorMessage (.history emptyToolResultTurn)).toolCallID = "t9"
    ∧ ∃ s, (convertPriorMessage (.history emptyToolResultTurn)).content = some s ∧ s ≠ "" :=
  openai_tool_role_content_nonempty.1 (.history emptyToolResultTurn) "t9" rfl

/-- C4 counterexample: (a) an assistant message with non-empty text
content and a tool call is emitted with content null, not with both; (b) a
user-role message's ToolCalls are emitted. -/
theorem openai_prior_message_counterexample :
    (convertPriorMessage (.plain assistantMixedMsg)).content = none
    ∧ (convertPriorMessage (.plain userWithCallMsg)).toolCalls ≠ [] := by
  constructor
  · rfl
  · simp [convertPriorMessage, LlmMessage.toolCalls, LlmMessage.toolResponse,
      LlmMessage.content, LlmMessage.role, userWithCallMsg]

/-- C4 amended: every prior message that is not a tool response is emitted
with its role; its content is emitted exactly when it is non-empty and the
message has no tool calls; when the message has tool calls - regardless of
its role - the content is set to null and one vendor tool-call entry per
ToolCall is emitted with JSON-encoded arguments. -/
theorem openai_prior_message_conversion :
    ∀ msg : LlmMessage, msg.toolResponse = none →
      (convertPriorMessage msg).role = msg.role
      ∧ (convertPriorMessage msg).toolCallID = ""
      ∧ (msg.toolCalls = [] →
          (convertPriorMessage msg).toolCalls = []
          ∧ (convertPriorMessage msg).content
              = (if msg.content ≠ "" then some msg.content else none))
      ∧ (msg.toolCalls ≠ [] →
          (convertPriorMessage msg).content = none
          ∧ (convertPriorMessage msg).toolCalls
              = msg.toolCalls.map fun call =>
                  { id := call.id
                    type := "function"
                    function := { name := call.name
                                  arguments := jsonEncode (.obj call.args) } }) := by
  intro msg h
  simp only [convertPriorMessage, h]
  by_cases hc : msg.toolCalls.isEmpty
  · have hc' : msg.toolCalls = [] := List.isEmpty_iff.mp hc
    simp [hc, hc']
  · have hc' : msg.toolCalls ≠ [] := fun he => hc (by simp [he])
    simp [hc, hc']

theorem openai_prior_message_conversion_witness :
    (convertPriorMessage (.plain assistantMixedMsg)).role = "assistant"
    ∧ (convertPriorMessage (.plain assistantMixedMsg)).toolCallID = ""
    ∧ (convertPriorMessage (.plain assistantMixedMsg)).content = none
    ∧ (convertPriorMessage (.plain assistantMixedMsg)).toolCalls
        = [{ id := "t1", type := "function",
             function := { name := "f", arguments := jsonEncode (.obj [("x", .num 2)]) } }] := by
  have h := openai_prior_message_conversion (.plain assistantMixedMsg) rfl
  have hne : (LlmMessage.plain assistantMixedMsg).toolCalls ≠ [] := by
    simp [LlmMessage.toolCalls, assistantMixedMsg]
  refine ⟨h.1, h.2.1, (h.2.2.2 hne).1, ?_⟩
  rw [(h.2.2.2 hne).2]
  rfl

theorem propsToGoogleSchemas_keys (o : JObj) :
    ∀ ps, propsToGoogleSchemas o = some ps → ps.map Prod.fst = o.map Prod.fst := by
  induction o with
  | nil =>
    intro ps h
    simp [propsToGoogleSchemas] at h
    simp [← h]
  | cons kv rest ih =>
    intro ps h
    obtain ⟨k, v⟩ := kv
    match v with
    | .obj m =>
      simp only [propsToGoogleSchemas] at h
      cases hg : propertyToGoogleSchema (.obj m) with
      | none => rw [hg] at h; simp at h
      | some g =>
        cases hgs : propsToGoogleSchemas rest with
        | none => rw [hg, hgs] at h; simp at h
        | some gs =>
          rw [hg, hgs] at h
          simp at h
          subst h
          simp [ih gs hgs]
    | .null | .bool _ | .num _ | .str _ | .arr _ =>
      simp [propsToGoogleSchemas] at h

/-- C3: translating a Tool whose InputSchema has an empty properties map
yields a schema that is itself nullable and has exactly one synthetic
property, named "unused", of integer type and nullable; translating a
schema with at least one property injects nothing: the translated
property names are exactly the source names and the schema is not
nullable. -/
theorem google_zero_argument_workaround :
    ∀ schema : Schema,
      (schema.properties = [] →
        translateToGoogleSchema schema
          = some (.mk (toType schema.type) "" true
              [("unused", .mk .integer "" true [] none [])] none schema.required))
      ∧ (schema.properties ≠ [] → ∀ g, translateToGoogleSchema schema = some g →
          g.nullable = false
          ∧ g.properties.map Prod.fst = schema.properties.map Prod.fst) := by
  intro schema
  constructor
  · intro h
    simp [translateToGoogleSchema, h, propsToGoogleSchemas]
  · intro h g hg
    simp only [translateToGoogleSchema] at hg
    cases hps : propsToGoogleSchemas schema.properties with
    | none => rw [hps] at hg; simp at hg
    | some ps =>
      rw [hps] at hg
      have hkeys := propsToGoogleSchemas_keys schema.properties ps hps
      have hne : ps ≠ [] := by
        intro he
        subst he
        simp at hkeys
        exact h hkeys
      have hie : ps.isEmpty = false := by
        cases ps with
        | nil => exact absurd rfl hne
        | cons a b => rfl
      simp [hie] at hg
      subst hg
      exact ⟨rfl, hkeys⟩

theorem google_zero_argument_workaround_witness :
    translateToGoogleSchema { type := "object", properties := [], required := [] }
      = some (.mk .object "" true
          [("unused", .mk .integer "" true [] none [])] none []) :=
  (google_zero_argument_workaround { type := "object", properties := [], required := [] }).1 rfl

theorem googleToolCallsAux_ids (base : Nat) (l : List (String × JObj)) :
    ∀ i : Nat,
      (googleToolCallsAux base i l).map GToolCall.id
        = (List.range l.length).map fun j => "Tool<" ++ toString (base + i + j) ++ ">" := by
  induction l with
  | nil => intro i; simp [googleToolCallsAux]
  | cons hd tl ih =>
    intro i
    obtain ⟨n, a⟩ := hd
    simp only [googleToolCallsAux, List.map_cons, List.length_cons,
      List.range_succ_eq_map, List.map_map, ih (i + 1)]
    have hfun : ((fun j => "Tool<" ++ toString (base + i + j) ++ ">") ∘ Nat.succ)
        = fun j => "Tool<" ++ toString (base + (i + 1) + j) ++ ">" := by
      funext j
      have h2 : base + i + Nat.succ j = base + (i + 1) + j := by omega
      simp [Function.comp, h2]
    rw [hfun]
    simp [GToolCall.id]

/-- C2: each decoded Google response assigns its k function calls the
ids Tool&lt;c&gt;, ..., Tool&lt;c+k-1&gt; where c is the provider's counter before the
call, and advances the counter by k; in particular two consecutive
responses with 2 then 1 function calls, starting from a fresh counter 0,
yield ids Tool&lt;0&gt;, Tool&lt;1&gt; then Tool&lt;2&gt;, leaving the counter at 3 (the
counter only ever advances, it is never reset). -/
theorem google_toolcall_id_monotonic :
    (∀ (c : Nat) (cand : GCandidate),
        ((googleDecodeResponse c cand).1.toolCalls.map GToolCall.id
          = (List.range cand.functionCalls.length).map fun i => "Tool<" ++ toString (c + i) ++ ">")
        ∧ (googleDecodeResponse c cand).2 = c + cand.functionCalls.length)
    ∧ ((googleDecodeResponse 0
          { role := "model",
            parts := [.functionCall "f" [], .functionCall "g" []] }).1.toolCalls.map GToolCall.id
        = ["Tool<0>", "Tool<1>"])
    ∧ ((googleDecodeResponse
          (googleDecodeResponse 0
            { role := "model",
              parts := [.functionCall "f" [], .functionCall "g" []] }).2
          { role := "model", parts := [.functionCall "h" []] }).1.toolCalls.map GToolCall.id
        = ["Tool<2>"])
    ∧ (googleDecodeResponse
          (googleDecodeResponse 0
            { role := "model",
              parts := [.functionCall "f" [], .functionCall "g" []] }).2
          { role := "model", parts := [.functionCall "h" []] }).2 = 3 := by
  refine ⟨?_, by decide, by decide, by decide⟩
  intro c cand
  constructor
  · have h := googleToolCallsAux_ids c cand.functionCalls 0
    simp only [GMessage.toolCalls, googleDecodeResponse] at h ⊢
    simpa using h
  · rfl

theorem anthropicStepAcc_eq (b : ABlock) (acc : List String) :
    anthropicStepAcc b acc = acc ++ anthropicBlockContrib b !acc.isEmpty := by
  by_cases ht : b.type = "text"
  · simp [anthropicStepAcc, anthropicBlockContrib, ht]
  · by_cases hr : b.type = "tool_result"
    · cases hb : b.content with
      | str s => simp [anthropicStepAcc, anthropicBlockContrib, ht, hr, hb]
      | arr items =>
        cases hacc : acc with
        | nil =>
          cases hts : anthropicItemTexts items with
          | nil =>
            by_cases htx : b.text = ""
            · simp [anthropicStepAcc, anthropicBlockContrib, ht, hr, hb, hts, htx]
            · simp [anthropicStepAcc, anthropicBlockContrib, ht, hr, hb, hts, htx]
          | cons x xs => simp [anthropicStepAcc, anthropicBlockContrib, ht, hr, hb, hts]
        | cons a as => simp [anthropicStepAcc, anthropicBlockContrib, ht, hr, hb]
      | null =>
        cases hacc : acc with
        | nil =>
          by_cases htx : b.text = ""
          · simp [anthropicStepAcc, anthropicBlockContrib, ht, hr, hb, htx]
          · simp [anthropicStepAcc, anthropicBlockContrib, ht, hr, hb, htx]
        | cons a as => simp [anthropicStepAcc, anthropicBlockContrib, ht, hr, hb]
      | bool bb =>
        cases hacc : acc with
        | nil =>
          by_cases htx : b.text = ""
          · simp [anthropicStepAcc, anthropicBlockContrib, ht, hr, hb, htx]
          · simp [anthropicStepAcc, anthropicBlockContrib, ht, hr, hb, htx]
        | cons a as => simp [anthropicStepAcc, anthropicBlockContrib, ht, hr, hb]
      | num nn =>
        cases hacc : acc with
        | nil =>
          by_cases htx : b.text = ""
          · simp [anthropicStepAcc, anthropicBlockContrib, ht, hr, hb, htx]
          · simp [anthropicStepAcc, anthropicBlockContrib, ht, hr, hb, htx]
        | cons a as => simp [anthropicStepAcc, anthropicBlockContrib, ht, hr, hb]
      | obj oo =>
        cases hacc : acc with
        | nil =>
          by_cases htx : b.text = ""
          · simp [anthropicStepAcc, anthropicBlockContrib, ht, hr, hb, htx]
          · simp [anthropicStepAcc, anthropicBlockContrib, ht, hr, hb, htx]
        | cons a as => simp [anthropicStepAcc, anthropicBlockContrib, ht, hr, hb]
    · simp [anthropicStepAcc, anthropicBlockContrib, ht, hr]

theorem anthropicContentLoop_eq_spec (bs : List ABlock) :
    ∀ acc : List String,
      anthropicContentLoop bs acc = acc ++ anthropicSpecLoop bs !acc.isEmpty := by
  induction bs with
  | nil => intro acc; simp [anthropicContentLoop, anthropicSpecLoop]
  | cons b rest ih =>
    intro acc
    show anthropicContentLoop rest (anthropicStepAcc b acc) = _
    rw [ih (anthropicStepAcc b acc), anthropicStepAcc_eq]
    have hie : (acc ++ anthropicBlockContrib b !acc.isEmpty).isEmpty
        = (acc.isEmpty && (anthropicBlockContrib b !acc.isEmpty).isEmpty) := by
      cases acc <;> simp
    rw [hie]
    simp only [anthropicSpecLoop]
    rw [List.append_assoc]
    simp [Bool.not_and]

/-- C5 counterexample: the claim's fallback clause fails as stated. In
textThenRawToolResult the tool_result block's content is neither a string
nor an array, so per the claim its raw Text field "b" should contribute
and Content() should be "a b"; the code only consults the raw Text field
when the whole accumulated content list is still empty, so the result is
just "a". -/
theorem anthropic_content_counterexample :
    AMessage.content textThenRawToolResult = "a"
    ∧ AMessage.content textThenRawToolResult ≠ "a b" := by
  constructor
  · decide
  · decide

/-- C5 amended: anthropic Content() scans blocks in order; a text block
contributes its text; a tool_result block contributes its string content,
else the fmt-printed "text" entries of its array-of-map content (non-map
array items are fmt-printed directly), else its raw Text field - the raw
Text fallback applying only when no content has been accumulated from any
block so far; contributions are joined with single spaces and trimmed. -/
theorem anthropic_content_reconstruction :
    ∀ m : AMessage,
      m.content = trimSpace (joinWith " " (anthropicSpecLoop m.blocks false)) := by
  intro m
  rw [AMessage.content, anthropicContentLoop_eq_spec m.blocks []]
  rfl

theorem propertyToGoogleSchema_object (props ps : JObj) (t : String)
    (hlt : lookupJ props "type" = some (.str t)) (hobj : toType t = .object)
    (hp : lookupJ props "properties" = some (.obj ps)) :
    propertyToGoogleSchema (.obj props)
      = (propsToGoogleSchemas ps).map fun gps =>
          .mk (toType t) (googleDescription props) false gps none [] := by
  unfold propertyToGoogleSchema
  rw [hlt, hp]
  simp [hobj]

theorem propertyToGoogleSchema_object_bad (props : JObj) (t : String)
    (hlt : lookupJ props "type" = some (.str t)) (hobj : toType t = .object)
    (hnp : ∀ ps : JObj, lookupJ props "properties" ≠ some (.obj ps)) :
    propertyToGoogleSchema (.obj props) = none := by
  unfold propertyToGoogleSchema
  rw [hlt]
  cases hp : lookupJ props "properties" with
  | none => simp [hobj]
  | some pv =>
    cases pv with
    | obj ps => exact absurd hp (hnp ps)
    | null => simp [hobj]
    | bool b => simp [hobj]
    | num k => simp [hobj]
    | str s => simp [hobj]
    | arr xs => simp [hobj]

theorem propertyToGoogleSchema_array (props ip : JObj) (t : String) (r : Option GSchema)
    (hlt : lookupJ props "type" = some (.str t)) (hobj : toType t ≠ .object)
    (harr : toType t = .array)
    (hi : lookupJ props "items" = some (.obj ip))
    (hrec : propertyToGoogleSchema (.obj ip) = r) :
    propertyToGoogleSchema (.obj props)
      = r.map fun gi =>
          .mk (toType t) (googleDescription props) false [] (some gi) [] := by
  unfold propertyToGoogleSchema
  rw [hlt, hi]
  simp [hobj, harr, hrec]

theorem propertyToGoogleSchema_array_bad (props : JObj) (t : String)
    (hlt : lookupJ props "type" = some (.str t)) (hobj : toType t ≠ .object)
    (harr : toType t = .array)
    (hni : ∀ ip : JObj, lookupJ props "items" ≠ some (.obj ip)) :
    propertyToGoogleSchema (.obj props) = none := by
  unfold propertyToGoogleSchema
  rw [hlt]
  cases hi : lookupJ props "items" with
  | none => simp [hobj, harr]
  | some iv =>
    cases iv with
    | obj ip => exact absurd hi (hni ip)
    | null => simp [hobj, harr]
    | bool b => simp [hobj, harr]
    | num k => simp [hobj, harr]
    | str s => simp [hobj, harr]
    | arr xs => simp [hobj, harr]

theorem propertyToGoogleSchema_leaf (props : JObj) (t : String)
    (hlt : lookupJ props "type" = some (.str t)) (hobj : toType t ≠ .object)
    (harr : toType t ≠ .array) :
    propertyToGoogleSchema (.obj props)
      = some (.mk (toType t) (googleDescription props) false [] none []) := by
  unfold propertyToGoogleSchema
  rw [hlt]
  simp [hobj, harr]

theorem wfGoogleProp_object (props ps : JObj) (t : String)
    (hlt : lookupJ props "type" = some (.str t)) (hobj : toType t = .object)
    (hp : lookupJ props "properties" = some (.obj ps)) :
    wfGoogleProp (.obj props) = wfGoogleProps ps := by
  unfold wfGoogleProp
  rw [hlt, hp]
  simp [hobj]

theorem wfGoogleProp_object_bad (props : JObj) (t : String)
    (hlt : lookupJ props "type" = some (.str t)) (hobj : toType t = .object)
    (hnp : ∀ ps : JObj, lookupJ props "properties" ≠ some (.obj ps)) :
    wfGoogleProp (.obj props) = false := by
  unfold wfGoogleProp
  rw [hlt]
  cases hp : lookupJ props "properties" with
  | none => simp [hobj]
  | some pv =>
    cases pv with
    | obj ps => exact absurd hp (hnp ps)
    | null => simp [hobj]
    | bool b => simp [hobj]
    | num k => simp [hobj]
    | str s => simp [hobj]
    | arr xs => simp [hobj]

theorem wfGoogleProp_array (props ip : JObj) (t : String) (r : Bool)
    (hlt : lookupJ props "type" = some (.str t)) (hobj : toType t ≠ .object)
    (harr : toType t = .array)
    (hi : lookupJ props "items" = some (.obj ip))
    (hrec : wfGoogleProp (.obj ip) = r) :
    wfGoogleProp (.obj props) = r := by
  unfold wfGoogleProp
  rw [hlt, hi]
  simp [hobj, harr, hrec]

theorem wfGoogleProp_array_bad (props : JObj) (t : String)
    (hlt : lookupJ props "type" = some (.str t)) (hobj : toType t ≠ .object)
    (harr : toType t = .array)
    (hni : ∀ ip : JObj, lookupJ props "items" ≠ some (.obj ip)) :
    wfGoogleProp (.obj props) = false := by
  unfold wfGoogleProp
  rw [hlt]
  cases hi : lookupJ props "items" with
  | none => simp [hobj, harr]
  | some iv =>
    cases iv with
    | obj ip => exact absurd hi (hni ip)
    | null => simp [hobj, harr]
    | bool b => simp [hobj, harr]
    | num k => simp [hobj, harr]
    | str s => simp [hobj, harr]
    | arr xs => simp [hobj, harr]

theorem wfGoogleProp_leaf (props : JObj) (t : String)
    (hlt : lookupJ props "type" = some (.str t)) (hobj : toType t ≠ .object)
    (harr : toType t ≠ .array) :
    wfGoogleProp (.obj props) = true := by
  unfold wfGoogleProp
  rw [hlt]
  simp [hobj, harr]

theorem propsToGoogleSchemas_cons (k : String) (v : JValue) (rest : JObj) :
    propsToGoogleSchemas ((k, v) :: rest)
      = match v with
        | .obj m =>
          match propertyToGoogleSchema (.obj m), propsToGoogleSchemas rest with
          | some g, some gs => some ((k, g) :: gs)
          | _, _ => none
        | _ => none := by
  conv_lhs => rw [propsToGoogleSchemas.eq_def]

theorem wfGoogleProps_cons (k : String) (v : JValue) (rest : JObj) :
    wfGoogleProps ((k, v) :: rest)
      = match v with
        | .obj m => wfGoogleProp (.obj m) && wfGoogleProps rest
        | _ => false := by
  conv_lhs => rw [wfGoogleProps.eq_def]

theorem googleWf_aux :
    ∀ n : Nat,
      (∀ v : JValue, sizeOf v ≤ n → (propertyToGoogleSchema v).isSome = wfGoogleProp v)
      ∧ (∀ o : JObj, sizeOf o ≤ n → (propsToGoogleSchemas o).isSome = wfGoogleProps o) := by
  intro n
  induction n using Nat.strong_induction_on with
  | _ n ih =>
    constructor
    · intro v hv
      match v with
      | .null => simp [propertyToGoogleSchema, wfGoogleProp]
      | .bool b => simp [propertyToGoogleSchema, wfGoogleProp]
      | .num k => simp [propertyToGoogleSchema, wfGoogleProp]
      | .str s => simp [propertyToGoogleSchema, wfGoogleProp]
      | .arr xs => simp [propertyToGoogleSchema, wfGoogleProp]
      | .obj props =>
        have hv' : 1 + sizeOf props ≤ n := by simp at hv; omega
        cases hlt : lookupJ props "type" with
        | none => simp [propertyToGoogleSchema, wfGoogleProp, hlt]
        | some tv =>
          match tv with
          | .null => simp [propertyToGoogleSchema, wfGoogleProp, hlt]
          | .bool b => simp [propertyToGoogleSchema, wfGoogleProp, hlt]
          | .num k => simp [propertyToGoogleSchema, wfGoogleProp, hlt]
          | .arr xs => simp [propertyToGoogleSchema, wfGoogleProp, hlt]
          | .obj fs => simp [propertyToGoogleSchema, wfGoogleProp, hlt]
          | .str t =>
            by_cases hobj : toType t = .object
            · cases hp : lookupJ props "properties" with
              | none =>
                rw [propertyToGoogleSchema_object_bad props t hlt hobj
                      (by intro ps hc; rw [hp] at hc; cases hc),
                    wfGoogleProp_object_bad props t hlt hobj
                      (by intro ps hc; rw [hp] at hc; cases hc)]
                rfl
              | some pv =>
                match pv with
                | .obj ps =>
                  have hsz : sizeOf ps < n := by
                    have h1 := sizeOf_lookupJ props "properties" _ hp
                    simp at h1
                    omega
                  have hrec := (ih (sizeOf ps) hsz).2 ps (Nat.le_refl _)
                  rw [propertyToGoogleSchema_object props ps t hlt hobj hp,
                      wfGoogleProp_object props ps t hlt hobj hp, ← hrec]
                  cases propsToGoogleSchemas ps <;> rfl
                | .null =>
                  rw [propertyToGoogleSchema_object_bad props t hlt hobj
                        (by intro ps hc; rw [hp] at hc; simp at hc),
                      wfGoogleProp_object_bad props t hlt hobj
                        (by intro ps hc; rw [hp] at hc; simp at hc)]
                  rfl
                | .bool b =>
                  rw [propertyToGoogleSchema_object_bad props t hlt hobj
                        (by intro ps hc; rw [hp] at hc; simp at hc),
                      wfGoogleProp_object_bad props t hlt hobj
                        (by intro ps hc; rw [hp] at hc; simp at hc)]
                  rfl
                | .num k =>
                  rw [propertyToGoogleSchema_object_bad props t hlt hobj
                        (by intro ps hc; rw [hp] at hc; simp at hc),
                      wfGoogleProp_object_bad props t hlt hobj
                        (by intro ps hc; rw [hp] at hc; simp at hc)]
                  rfl
                | .str s =>
                  rw [propertyToGoogleSchema_object_bad props t hlt hobj
                        (by intro ps hc; rw [hp] at hc; simp at hc),
                      wfGoogleProp_object_bad props t hlt hobj
                        (by intro ps hc; rw [hp] at hc; simp at hc)]
                  rfl
                | .arr xs =>
                  rw [propertyToGoogleSchema_object_bad props t hlt hobj
                        (by intro ps hc; rw [hp] at hc; simp at hc),
                      wfGoogleProp_object_bad props t hlt hobj
                        (by intro ps hc; rw [hp] at hc; simp at hc)]
                  rfl
            · by_cases harr : toType t = .array
              · cases hi : lookupJ props "items" with
                | none =>
                  rw [propertyToGoogleSchema_array_bad props t hlt hobj harr
                        (by intro ip hc; rw [hi] at hc; cases hc),
                      wfGoogleProp_array_bad props t hlt hobj harr
                        (by intro ip hc; rw [hi] at hc; cases hc)]
                  rfl
                | some iv =>
                  match iv with
                  | .obj ip =>
                    have hsz : sizeOf (JValue.obj ip) < n := by
                      have h1 := sizeOf_lookupJ props "items" _ hi
                      simp at h1 ⊢
                      omega
                    have hrec := (ih (sizeOf (JValue.obj ip)) hsz).1
                      (JValue.obj ip) (Nat.le_refl _)
                    rw [propertyToGoogleSchema_array props ip t _ hlt hobj harr hi rfl,
                        wfGoogleProp_array props ip t _ hlt hobj harr hi rfl, ← hrec]
                    cases propertyToGoogleSchema (JValue.obj ip) <;> rfl
                  | .null =>
                    rw [propertyToGoogleSchema_array_bad props t hlt hobj harr
                          (by intro ip hc; rw [hi] at hc; simp at hc),
                        wfGoogleProp_array_bad props t hlt hobj harr
                          (by intro ip hc; rw [hi] at hc; simp at hc)]
                    rfl
                  | .bool b =>
                    rw [propertyToGoogleSchema_array_bad props t hlt hobj harr
                          (by intro ip hc; rw [hi] at hc; simp at hc),
                        wfGoogleProp_array_bad props t hlt hobj harr
                          (by intro ip hc; rw [hi] at hc; simp at hc)]
                    rfl
                  | .num k =>
                    rw [propertyToGoogleSchema_array_bad props t hlt hobj harr
                          (by intro ip hc; rw [hi] at hc; simp at hc),
                        wfGoogleProp_array_bad props t hlt hobj harr
                          (by intro ip hc; rw [hi] at hc; simp at hc)]
                    rfl
                  | .str s =>
                    rw [propertyToGoogleSchema_array_bad props t hlt hobj harr
                          (by intro ip hc; rw [hi] at hc; simp at hc),
                        wfGoogleProp_array_bad props t hlt hobj harr
                          (by intro ip hc; rw [hi] at hc; simp at hc)]
                    rfl
                  | .arr xs =>
                    rw [propertyToGoogleSchema_array_bad props t hlt hobj harr
                          (by intro ip hc; rw [hi] at hc; simp at hc),
                        wfGoogleProp_array_bad props t hlt hobj harr
                          (by intro ip hc; rw [hi] at hc; simp at hc)]
                    rfl
              · rw [propertyToGoogleSchema_leaf props t hlt hobj harr,
                    wfGoogleProp_leaf props t hlt hobj harr]
                rfl
    · intro o ho
      match o with
      | [] => simp [propsToGoogleSchemas, wfGoogleProps]
      | (k, v) :: rest =>
        rw [propsToGoogleSchemas_cons, wfGoogleProps_cons]
        match v with
        | .null => rfl
        | .bool b => rfl
        | .num nn => rfl
        | .str s => rfl
        | .arr xs => rfl
        | .obj m =>
          have hsz1 : sizeOf (JValue.obj m) < n := by simp at ho ⊢; omega
          have hsz2 : sizeOf rest < n := by simp at ho; omega
          have hrec1 := (ih (sizeOf (JValue.obj m)) hsz1).1 (JValue.obj m) (Nat.le_refl _)
          have hrec2 := (ih (sizeOf rest) hsz2).2 rest (Nat.le_refl _)
          show (match propertyToGoogleSchema (JValue.obj m), propsToGoogleSchemas rest with
              | some g, some gs => some ((k, g) :: gs)
              | _, _ => none).isSome
            = (wfGoogleProp (JValue.obj m) && wfGoogleProps rest)
          rw [← hrec1, ← hrec2]
          cases propertyToGoogleSchema (JValue.obj m) <;>
            cases propsToGoogleSchemas rest <;> rfl

/-- C9: the Google schema translation is total exactly on the inputs
satisfying the precondition wfGoogleProps / wfGoogleProp (every property
value is a map with a string "type" entry, object-typed properties carry a
"properties" map, array-typed properties carry an "items" map,
recursively); outside it the unchecked type assertions panic, which the
embedding records as none - the functions return no error value. -/
theorem google_schema_translation_totality :
    (∀ schema : Schema,
        (translateToGoogleSchema schema).isSome = wfGoogleProps schema.properties)
    ∧ (∀ v : JValue, (propertyToGoogleSchema v).isSome = wfGoogleProp v) := by
  have base := googleWf_aux
  constructor
  · intro s
    have h := (base (sizeOf s.properties)).2 s.properties (Nat.le_refl _)
    unfold translateToGoogleSchema
    cases hps : propsToGoogleSchemas s.properties with
    | none =>
      rw [hps] at h
      exact h
    | some ps =>
      rw [hps] at h
      by_cases hie : ps.isEmpty <;> simp [hie, ← h]
  · intro v
    exact (base (sizeOf v)).1 v (Nat.le_refl _)
